import Mathlib

/-!
# cftf: the fold-expression / static_assert rewriter of `src/main.cpp`

A shallow embedding of the transformation engine in `src/main.cpp`:

* the source slicer `ASTVisitor::GetClosedStringFor` (with `getLocForEndOfToken`),
* the two node visitors `ASTVisitor::VisitCXXFoldExpr` and `ASTVisitor::VisitStaticAssertDecl`,
* the traversal override `ASTVisitor::TraverseCXXFoldExpr` together with the default
  pre-order traversal selected by `ASTVisitor::shouldTraversePostOrder`,
* the driver `ASTConsumer::HandleTopLevelDecl` / `FrontendAction::EndSourceFileAction`.

Source positions are byte offsets into the main file buffer.  `std::string` is `String`,
a thrown C++ exception is `Except.error`, and the mutable rewriter is passed explicitly.
-/

namespace cftf

/-! ## Data model -/

/-- The enumeration `clang::BinaryOperatorKind`, in the order of clang's `OperationKinds.def`
(the clang releases that still offer `getLocStart`, which `main.cpp` calls, also define the
three-way comparison `BO_Cmp`). -/
inductive BinaryOperatorKind where
  | BO_PtrMemD | BO_PtrMemI
  | BO_Mul | BO_Div | BO_Rem
  | BO_Add | BO_Sub
  | BO_Shl | BO_Shr
  | BO_Cmp
  | BO_LT | BO_GT | BO_LE | BO_GE
  | BO_EQ | BO_NE
  | BO_And | BO_Xor | BO_Or
  | BO_LAnd | BO_LOr
  | BO_Assign | BO_MulAssign | BO_DivAssign | BO_RemAssign | BO_AddAssign | BO_SubAssign
  | BO_ShlAssign | BO_ShrAssign | BO_AndAssign | BO_XorAssign | BO_OrAssign
  | BO_Comma
  deriving DecidableEq, Repr

/-- A `clang::SourceRange`: `B` is the position of the first character of the first token,
`E` the position of the first character of the LAST token (a closed token range). -/
structure SourceRange where
  B : Nat
  E : Nat
  deriving DecidableEq, Repr

/-- What the code reads from `clang::SourceManager` and `clang::Lexer`: the bytes of the main
file, and `Lexer::MeasureTokenLength`, the length of the token that starts at a position.  The
lexer is clang's, so it is a parameter of the development. -/
structure SourceManager where
  buffer : String
  MeasureTokenLength : Nat → Nat

/-- The syntax tree handed over by the front end, restricted to what the visitor reads.

* `CXXFoldExpr`: `getOperator()`, `isLeftFold()`, `getPattern()`, `getInit()` (absent init is
  the null pointer, here `none`);
* `StaticAssertDecl`: `getAssertExpr()` and `getMessage()`; the message is a string literal,
  a leaf of the tree, of which only the range is kept;
* `other`: every other declaration, statement or expression, with its children in source
  order. -/
inductive Node where
  | CXXFoldExpr (range : SourceRange) (op : BinaryOperatorKind) (isLeftFold : Bool)
      (pattern : Node) (init : Option Node)
  | StaticAssertDecl (range : SourceRange) (assertExpr : Node) (message : Option SourceRange)
  | other (range : SourceRange) (children : List Node)

/-- The source range of a node. -/
def Node.getSourceRange : Node → SourceRange
  | .CXXFoldExpr range _ _ _ _ => range
  | .StaticAssertDecl range _ _ => range
  | .other range _ => range

/-- The accessor `getLocStart()`. -/
def Node.getLocStart (n : Node) : Nat := n.getSourceRange.B

/-- The accessor `getLocEnd()`. -/
def Node.getLocEnd (n : Node) : Nat := n.getSourceRange.E

/-- The view `clang::CXXFoldExpr*` that `VisitCXXFoldExpr` receives. -/
structure CXXFoldExpr where
  range : SourceRange
  op : BinaryOperatorKind
  isLeftFold : Bool
  pattern : Node
  init : Option Node

/-- In clang `isLeftFold()` is defined as `!isRightFold()`. -/
def CXXFoldExpr.isRightFold (expr : CXXFoldExpr) : Bool := !expr.isLeftFold

/-- The view `clang::StaticAssertDecl*` that `VisitStaticAssertDecl` receives. -/
structure StaticAssertDecl where
  range : SourceRange
  assertExpr : Node
  message : Option SourceRange

/-- The two exceptions `main.cpp` can raise: the explicit `throw std::runtime_error(...)`
and the `std::out_of_range` of `std::map::at`. -/
inductive Exception where
  | runtime_error (what : String)
  | out_of_range
  deriving DecidableEq, Repr

/-- An edit: a closed token range of the original buffer and the text that replaces it. -/
structure Edit where
  range : SourceRange
  text : String
  deriving DecidableEq, Repr

/-- Modelled from the spec: the edit buffer behind `rewriter.hpp` (`RewriterBase`/`Rewriter`,
not part of `main.cpp`).  The spec describes it as an ordered view over the original text that
is mutated by every successful rewrite; it is kept as the edits in the order they were made. -/
structure Rewriter where
  edits : List Edit
  deriving DecidableEq, Repr

/-- Modelled from the spec: `RewriterBase::ReplaceTextIncludingEndToken` (declared in
`rewriter.hpp`), "replacing an arbitrary closed token range with new text": it records one
edit for the range. -/
def Rewriter.ReplaceTextIncludingEndToken (rewriter : Rewriter) (range : SourceRange)
    (new_str : String) : Rewriter :=
  ⟨rewriter.edits ++ [⟨range, new_str⟩]⟩

/-! ## Source slicer -/

/-- `ASTVisitor::getLocForEndOfToken`: `Lexer::getLocForEndOfToken(end, 0, ...)`, the position
right after the token that starts at `loc`. -/
def getLocForEndOfToken (sm : SourceManager) (loc : Nat) : Nat :=
  loc + sm.MeasureTokenLength loc

/-- `ASTVisitor::GetClosedStringFor`: `std::string(begin_data, end_data - begin_data)`, the
characters of the buffer from `begin` up to the end of the token starting at `end`. -/
def GetClosedStringFor (sm : SourceManager) (begin_loc end_loc : Nat) : String :=
  ⟨(sm.buffer.data.drop begin_loc).take (getLocForEndOfToken sm end_loc - begin_loc)⟩

/-! ## Fold expressions -/

/-- The local `std::map operators` of `VisitCXXFoldExpr`, as the 30 assignments
`operators[k] = name` in source order. -/
def operators : List (BinaryOperatorKind × String) :=
  [ (.BO_Add, "add"), (.BO_Sub, "sub"), (.BO_Mul, "mul"), (.BO_Div, "div"), (.BO_Rem, "mod"),
    (.BO_Xor, "xor"), (.BO_And, "and"), (.BO_Or, "or"), (.BO_Shl, "shl"), (.BO_Shr, "shr"),
    (.BO_AddAssign, "add_assign"), (.BO_SubAssign, "sub_assign"), (.BO_MulAssign, "mul_assign"),
    (.BO_DivAssign, "div_assign"), (.BO_RemAssign, "mod_assign"), (.BO_XorAssign, "xor_assign"),
    (.BO_AndAssign, "and_assign"), (.BO_OrAssign, "or_assign"), (.BO_ShlAssign, "shl_assign"),
    (.BO_ShrAssign, "shr_assign"),
    (.BO_Assign, "assign"), (.BO_EQ, "equals"), (.BO_NE, "notequals"), (.BO_LT, "less"),
    (.BO_GT, "greater"), (.BO_LE, "lessequals"), (.BO_GE, "greaterequals"),
    (.BO_LAnd, "land"), (.BO_LOr, "lor"), (.BO_Comma, "comma") ]

/-- The lookup `operators.at(fold_op)`: the mapped name, or `std::out_of_range`. -/
def operators_at (fold_op : BinaryOperatorKind) : Except Exception String :=
  match operators.lookup fold_op with
  | some name => .ok name
  | none => .error .out_of_range

/-- `ASTVisitor::VisitCXXFoldExpr`.  The result is the `bool` the visitor returns together
with the rewriter after the call, or the exception thrown. -/
def VisitCXXFoldExpr (sm : SourceManager) (expr : CXXFoldExpr) (rewriter : Rewriter) :
    Except Exception (Bool × Rewriter) :=
  let pattern_base_str := GetClosedStringFor sm expr.pattern.getLocStart expr.pattern.getLocEnd
  let fold_op := expr.op
  if fold_op = .BO_PtrMemD ∨ fold_op = .BO_PtrMemI then
    .error (.runtime_error "Fold expressions on member access operators not supported, yet!")
  else
    let init_value_str :=
      match expr.init with
      | some init => GetClosedStringFor sm init.getLocStart init.getLocEnd
      | none => ""
    match operators_at fold_op with
    | .error ex => .error ex
    | .ok name =>
      let pattern_str := "fold_expr_" ++ name
      let pattern_str :=
        if expr.isLeftFold then
          let pattern_str := pattern_str ++ "_left("
          if expr.init.isSome then pattern_str ++ (init_value_str ++ ", ") else pattern_str
        else
          pattern_str ++ "_right("
      let pattern_str := pattern_str ++ (pattern_base_str ++ "...")
      let pattern_str :=
        if expr.isRightFold ∧ expr.init.isSome then pattern_str ++ (", " ++ init_value_str)
        else pattern_str
      let pattern_str := pattern_str ++ ")"
      .ok (true, rewriter.ReplaceTextIncludingEndToken expr.range pattern_str)

/-- `VisitCXXFoldExpr` with the rewriter as the mutable object it is in the source: what the
call does (the `bool` returned or the exception thrown) together with the rewriter as the
call leaves it, also when it throws.  The statements are those of `VisitCXXFoldExpr`; the
only one that acts on the rewriter is the final `ReplaceTextIncludingEndToken`. -/
def VisitCXXFoldExpr.effect (sm : SourceManager) (expr : CXXFoldExpr) (rewriter : Rewriter) :
    Except Exception Bool × Rewriter :=
  let pattern_base_str := GetClosedStringFor sm expr.pattern.getLocStart expr.pattern.getLocEnd
  let fold_op := expr.op
  if fold_op = .BO_PtrMemD ∨ fold_op = .BO_PtrMemI then
    (.error (.runtime_error "Fold expressions on member access operators not supported, yet!"),
      rewriter)
  else
    let init_value_str :=
      match expr.init with
      | some init => GetClosedStringFor sm init.getLocStart init.getLocEnd
      | none => ""
    match operators_at fold_op with
    | .error ex => (.error ex, rewriter)
    | .ok name =>
      let pattern_str := "fold_expr_" ++ name
      let pattern_str :=
        if expr.isLeftFold then
          let pattern_str := pattern_str ++ "_left("
          if expr.init.isSome then pattern_str ++ (init_value_str ++ ", ") else pattern_str
        else
          pattern_str ++ "_right("
      let pattern_str := pattern_str ++ (pattern_base_str ++ "...")
      let pattern_str :=
        if expr.isRightFold ∧ expr.init.isSome then pattern_str ++ (", " ++ init_value_str)
        else pattern_str
      let pattern_str := pattern_str ++ ")"
      (.ok true, rewriter.ReplaceTextIncludingEndToken expr.range pattern_str)

/-- `ASTVisitor::TraverseCXXFoldExpr`: `WalkUpFromCXXFoldExpr(expr)` runs the visitor on the
node (the base `VisitStmt`/`VisitExpr` do nothing), its result is dropped, none of the
children is traversed, and the function returns `true`. -/
def TraverseCXXFoldExpr (sm : SourceManager) (expr : CXXFoldExpr) (rewriter : Rewriter) :
    Except Exception (Bool × Rewriter) :=
  match VisitCXXFoldExpr sm expr rewriter with
  | .error ex => .error ex
  | .ok (_, rewriter) => .ok (true, rewriter)

/-! ## Static assertions -/

/-- `ASTVisitor::VisitStaticAssertDecl`. -/
def VisitStaticAssertDecl (sm : SourceManager) (decl : StaticAssertDecl) (rewriter : Rewriter) :
    Except Exception (Bool × Rewriter) :=
  if decl.message.isNone then
    let assert_cond :=
      GetClosedStringFor sm decl.assertExpr.getLocStart decl.assertExpr.getLocEnd
    let new_assert := "static_assert(" ++ assert_cond ++ ", \"\")"
    .ok (true, rewriter.ReplaceTextIncludingEndToken decl.range new_assert)
  else
    .ok (true, rewriter)

/-! ## Traversal -/

/-- `ASTVisitor::shouldTraversePostOrder`. -/
def shouldTraversePostOrder : Bool := false

/-- The `TRY_TO` of `RecursiveASTVisitor`: stop the traversal when a step returns `false`;
an exception unwinds through it. -/
def TRY_TO (step : Except Exception (Bool × Rewriter))
    (next : Rewriter → Except Exception (Bool × Rewriter)) : Except Exception (Bool × Rewriter) :=
  match step with
  | .error ex => .error ex
  | .ok (false, rewriter) => .ok (false, rewriter)
  | .ok (true, rewriter) => next rewriter

mutual
/-- The traversal of `clang::RecursiveASTVisitor<ASTVisitor>` from one node
(`TraverseDecl`/`TraverseStmt`).  A fold expression goes to the override
`TraverseCXXFoldExpr`.  Every other node is walked by the default traversal: the node's
visitor runs before its children unless `shouldTraversePostOrder`, in which case it runs
after them.  For a static assertion the children are the condition and then the message; the
message is a string literal, on which no visitor of `ASTVisitor` acts. -/
def TraverseNode (sm : SourceManager) : Node → Rewriter → Except Exception (Bool × Rewriter)
  | .CXXFoldExpr range op isLeftFold pattern init, rewriter =>
      TraverseCXXFoldExpr sm ⟨range, op, isLeftFold, pattern, init⟩ rewriter
  | .StaticAssertDecl range assertExpr message, rewriter =>
      TRY_TO (if shouldTraversePostOrder then .ok (true, rewriter)
              else VisitStaticAssertDecl sm ⟨range, assertExpr, message⟩ rewriter) fun rewriter =>
      TRY_TO (TraverseNode sm assertExpr rewriter) fun rewriter =>
      if shouldTraversePostOrder then VisitStaticAssertDecl sm ⟨range, assertExpr, message⟩ rewriter
      else .ok (true, rewriter)
  | .other _ children, rewriter => TraverseChildren sm children rewriter
/-- The children of a node, traversed in source order. -/
def TraverseChildren (sm : SourceManager) : List Node → Rewriter → Except Exception (Bool × Rewriter)
  | [], rewriter => .ok (true, rewriter)
  | child :: rest, rewriter =>
      TRY_TO (TraverseNode sm child rewriter) fun rewriter => TraverseChildren sm rest rewriter
end

/-! ## Driver -/

/-- `ASTConsumer::HandleTopLevelDecl`: `visitor->TraverseDecl(elem)` for every declaration of
the group; the `bool` of each traversal is ignored. -/
def HandleTopLevelDecl (sm : SourceManager) : List Node → Rewriter → Except Exception Rewriter
  | [], rewriter => .ok rewriter
  | elem :: rest, rewriter =>
      match TraverseNode sm elem rewriter with
      | .error ex => .error ex
      | .ok (_, rewriter) => HandleTopLevelDecl sm rest rewriter

/-- One pass of the traversal over a file, as driven by clang's `ParseAST`: the front end hands
the top-level declaration groups of the file to `HandleTopLevelDecl` one by one. -/
def ParseAST (sm : SourceManager) : List (List Node) → Rewriter → Except Exception Rewriter
  | [], rewriter => .ok rewriter
  | ref :: rest, rewriter =>
      match HandleTopLevelDecl sm ref rewriter with
      | .error ex => .error ex
      | .ok rewriter => ParseAST sm rest rewriter

/-- Modelled from the spec: the emission `rewriter.getEditBuffer(...).write(...)` of the edit
buffer (behind `rewriter.hpp` and clang's rewriter): the original text in which every edit's
closed token range, from `range.B` to the end of the token starting at `range.E`, is replaced
by the edit's text.  Positions refer to the original buffer, so the edits are applied from the
last one made to the first: the pre-order traversal makes them in source order. -/
def Rewriter.write (sm : SourceManager) (rewriter : Rewriter) : String :=
  ⟨rewriter.edits.foldr
    (fun edit out =>
      out.take edit.range.B ++ edit.text.data ++ out.drop (getLocForEndOfToken sm edit.range.E))
    sm.buffer.data⟩

/-- `FrontendAction::EndSourceFileAction`: write the edit buffer of the main file. -/
def EndSourceFileAction (sm : SourceManager) (rewriter : Rewriter) : String :=
  rewriter.write sm

/-- One run of the tool on a file: traverse every top-level declaration, then emit the edit
buffer.  An exception of a visitor is caught nowhere, so nothing is emitted. -/
def runTool (sm : SourceManager) (tu : List (List Node)) : Except Exception String :=
  match ParseAST sm tu ⟨[]⟩ with
  | .error ex => .error ex
  | .ok rewriter => .ok (EndSourceFileAction sm rewriter)

/-! ## A lexer for the worked examples -/

/-- Token length used in the worked examples, standing in for clang's lexer: an identifier
or number is a maximal run of alphanumeric characters and underscores, every other character
is a token of its own, and there is no token past the end of the buffer. -/
def exampleTokenLength (buffer : String) (loc : Nat) : Nat :=
  match buffer.data.drop loc with
  | [] => 0
  | c :: rest =>
      if c.isAlphanum || c == '_' then
        1 + (rest.takeWhile fun d => d.isAlphanum || d == '_').length
      else 1

/-- The source manager of a worked example. -/
def exampleSM (buffer : String) : SourceManager := ⟨buffer, exampleTokenLength buffer⟩

/-! ## Notions used to state the properties -/

mutual
/-- The nodes reached by a complete traversal from a node, in the order in which the traversal
runs a visitor on them: a fold expression alone (its children are not traversed), a static
assertion followed by what is reached in its condition, any other node followed by what is
reached in its children. -/
def Node.visited : Node → List Node
  | .CXXFoldExpr range op isLeftFold pattern init =>
      [.CXXFoldExpr range op isLeftFold pattern init]
  | .StaticAssertDecl range assertExpr message =>
      .StaticAssertDecl range assertExpr message :: assertExpr.visited
  | .other range children => .other range children :: visitedChildren children
/-- The nodes reached in a list of children. -/
def visitedChildren : List Node → List Node
  | [] => []
  | child :: rest => child.visited ++ visitedChildren rest
end

mutual
/-- Whether the tree of a node contains a rewrite target: a fold expression, or a static
assertion without a message. -/
def Node.hasTarget : Node → Bool
  | .CXXFoldExpr _ _ _ _ _ => true
  | .StaticAssertDecl _ assertExpr message => message.isNone || assertExpr.hasTarget
  | .other _ children => hasTargetChildren children
/-- Whether one of the trees of a list contains a rewrite target. -/
def hasTargetChildren : List Node → Bool
  | [] => false
  | child :: rest => child.hasTarget || hasTargetChildren rest
end

/-- A fold expression whose operator is a member-pointer access, `.*` or `->*`. -/
def Node.isMemberPointerFold : Node → Bool
  | .CXXFoldExpr _ op _ _ _ => op = .BO_PtrMemD || op = .BO_PtrMemI
  | _ => false

/-- The fold operators of the C++17 grammar other than `.*` and `->*`: the 10 arithmetic,
bitwise and shift operators, their 10 compound assignments, plain assignment, the 6
relational operators, the 2 logical operators and the comma. -/
def supportedFoldOperators : List BinaryOperatorKind :=
  [ .BO_Add, .BO_Sub, .BO_Mul, .BO_Div, .BO_Rem, .BO_Xor, .BO_And, .BO_Or, .BO_Shl, .BO_Shr,
    .BO_AddAssign, .BO_SubAssign, .BO_MulAssign, .BO_DivAssign, .BO_RemAssign, .BO_XorAssign,
    .BO_AndAssign, .BO_OrAssign, .BO_ShlAssign, .BO_ShrAssign,
    .BO_Assign,
    .BO_LT, .BO_GT, .BO_LE, .BO_GE, .BO_EQ, .BO_NE,
    .BO_LAnd, .BO_LOr,
    .BO_Comma ]

/-- Two closed token ranges overlap when they share a character of the buffer: each begins
before the end of the last token of the other. -/
def SourceRange.overlaps (sm : SourceManager) (r1 r2 : SourceRange) : Bool :=
  decide (r1.B < getLocForEndOfToken sm r2.E) && decide (r2.B < getLocForEndOfToken sm r1.E)

/-- The range `inner` lies inside the range `outer`, as characters of the buffer. -/
def SourceRange.inside (sm : SourceManager) (inner outer : SourceRange) : Bool :=
  decide (outer.B ≤ inner.B)
    && decide (getLocForEndOfToken sm inner.E ≤ getLocForEndOfToken sm outer.E)

mutual
/-- A tree in which the range of every child lies inside the range of its parent. -/
def Node.wellNested (sm : SourceManager) : Node → Bool
  | .CXXFoldExpr range _ _ pattern init =>
      pattern.getSourceRange.inside sm range && pattern.wellNested sm
        && wellNestedInit sm range init
  | .StaticAssertDecl range assertExpr message =>
      assertExpr.getSourceRange.inside sm range && assertExpr.wellNested sm
        && (match message with
            | some msg => msg.inside sm range
            | none => true)
  | .other range children => wellNestedChildren sm range children
/-- The optional init of a fold expression lies inside the fold and is well nested. -/
def wellNestedInit (sm : SourceManager) (parent : SourceRange) : Option Node → Bool
  | none => true
  | some init => init.getSourceRange.inside sm parent && init.wellNested sm
/-- Every child of a list lies inside the parent and is well nested. -/
def wellNestedChildren (sm : SourceManager) (parent : SourceRange) : List Node → Bool
  | [] => true
  | child :: rest =>
      child.getSourceRange.inside sm parent && child.wellNested sm
        && wellNestedChildren sm parent rest
end

/-- The buffer of the worked example for nested targets: the class template `S` over the pack
`args`, whose body is `static_assert((args && ...));`. -/
def nestedAssertBuffer : String :=
  "template<bool... args> struct S \x7b static_assert((args && ...)); \x7d;"

/-- The tree of `nestedAssertBuffer`: a class template (offsets 0 to 64) holding the record
(23 to 64), holding the static assertion without message (34 to 61), whose condition is the
right fold `(args && ...)` (48 to 60) over the pattern `args` (49). -/
def nestedAssertTree : Node :=
  .other ⟨0, 64⟩ [.other ⟨23, 64⟩
    [.StaticAssertDecl ⟨34, 61⟩
      (.CXXFoldExpr ⟨48, 60⟩ .BO_LAnd false (.other ⟨49, 49⟩ []) none) none]]

/-- The tree of the buffer `(obj .* ... .* args)`: a left fold over `.*` (offsets 0 to 19)
with init `obj` (1) and pattern `args` (15). -/
def memberPointerFold : Node :=
  .CXXFoldExpr ⟨0, 19⟩ .BO_PtrMemD true (.other ⟨15, 15⟩ []) (some (.other ⟨1, 1⟩ []))

/-- The text of step 4 of the fold-expression algorithm of the spec, for the operator name
`name`, the pattern text `P` and the optional init text `I`: for a left fold
`fold_expr_<op>_left(`, then `<init>, ` if an init is present, then `<pattern>...`, then `)`;
for a right fold `fold_expr_<op>_right(`, then `<pattern>...`, then `, <init>` if an init is
present, then `)`. -/
def step4Text (name : String) (isLeftFold : Bool) (P : String) (I : Option String) : String :=
  if isLeftFold then
    "fold_expr_" ++ name ++ "_left("
      ++ (match I with
          | some init => init ++ ", "
          | none => "")
      ++ P ++ "..." ++ ")"
  else
    "fold_expr_" ++ name ++ "_right(" ++ P ++ "..."
      ++ (match I with
          | some init => ", " ++ init
          | none => "")
      ++ ")"

/-- The pattern text of a fold expression, sliced from the buffer of the source manager. -/
def CXXFoldExpr.patternText (sm : SourceManager) (expr : CXXFoldExpr) : String :=
  GetClosedStringFor sm expr.pattern.getLocStart expr.pattern.getLocEnd

/-- The init text of a fold expression, if it has an init, sliced from the buffer of the
source manager. -/
def CXXFoldExpr.initText (sm : SourceManager) (expr : CXXFoldExpr) : Option String :=
  expr.init.map fun init => GetClosedStringFor sm init.getLocStart init.getLocEnd

/-- The edit that the visitor of a node makes when it runs on the node and succeeds. -/
def Node.editOf (sm : SourceManager) : Node → Option Edit
  | .CXXFoldExpr range op isLeftFold pattern init =>
      (operators.lookup op).map fun name =>
        ⟨range, step4Text name isLeftFold
          (GetClosedStringFor sm pattern.getLocStart pattern.getLocEnd)
          (init.map fun i => GetClosedStringFor sm i.getLocStart i.getLocEnd)⟩
  | .StaticAssertDecl range assertExpr message =>
      if message.isNone then
        some ⟨range, "static_assert("
          ++ GetClosedStringFor sm assertExpr.getLocStart assertExpr.getLocEnd ++ ", \"\")"⟩
      else none
  | .other _ _ => none

/-- The nodes reached by the traversal of a whole file. -/
def visitedFile (tu : List (List Node)) : List Node :=
  tu.flatten.flatMap Node.visited

/-- The name of the call that `VisitCXXFoldExpr` synthesizes, the text it builds up to the
opening parenthesis: `fold_expr_`, the operator name, then `_left` or `_right`. -/
def callName (name : String) (isLeftFold : Bool) : String :=
  "fold_expr_" ++ name ++ (if isLeftFold then "_left" else "_right")

/-- The check, over all pairs of table entries and all pairs of directions, that two call
names are equal exactly when operator and direction are. -/
def callNamesDistinct : Bool :=
  operators.all fun p => operators.all fun q =>
    [true, false].all fun d1 => [true, false].all fun d2 =>
      (callName p.2 d1 == callName q.2 d2) == (p.1 == q.1 && d1 == d2)

/-- The text of the token that starts at `loc`. -/
def tokenText (sm : SourceManager) (loc : Nat) : String :=
  ⟨(sm.buffer.data.drop loc).take (sm.MeasureTokenLength loc)⟩

/-! ## Lemmas on the visitors and the traversal -/

theorem operators_lookup_not_member_pointer (op : BinaryOperatorKind) (name : String)
    (h : operators.lookup op = some name) : ¬(op = .BO_PtrMemD ∨ op = .BO_PtrMemI) := by
  rintro (rfl | rfl)
  · have h0 : operators.lookup .BO_PtrMemD = none := by decide
    rw [h0] at h; cases h
  · have h0 : operators.lookup .BO_PtrMemI = none := by decide
    rw [h0] at h; cases h

theorem VisitCXXFoldExpr_member_pointer (sm : SourceManager) (expr : CXXFoldExpr)
    (rewriter : Rewriter) (h : expr.op = .BO_PtrMemD ∨ expr.op = .BO_PtrMemI) :
    VisitCXXFoldExpr sm expr rewriter
      = .error (.runtime_error "Fold expressions on member access operators not supported, yet!") := by
  unfold VisitCXXFoldExpr
  simp only [h, if_true]

theorem VisitCXXFoldExpr_left (sm : SourceManager) (expr : CXXFoldExpr) (rewriter : Rewriter)
    (name : String) (hleft : expr.isLeftFold = true) (hop : operators.lookup expr.op = some name) :
    VisitCXXFoldExpr sm expr rewriter
      = .ok (true, rewriter.ReplaceTextIncludingEndToken expr.range
          ("fold_expr_" ++ name ++ "_left("
            ++ (match expr.init with
                | some init => GetClosedStringFor sm init.getLocStart init.getLocEnd ++ ", "
                | none => "")
            ++ GetClosedStringFor sm expr.pattern.getLocStart expr.pattern.getLocEnd ++ "..."
            ++ ")")) := by
  have hg := operators_lookup_not_member_pointer expr.op name hop
  unfold VisitCXXFoldExpr operators_at
  simp only [hg, if_false, hop, hleft, CXXFoldExpr.isRightFold]
  cases hi : expr.init <;> simp [String.append_assoc]

theorem VisitCXXFoldExpr_right (sm : SourceManager) (expr : CXXFoldExpr) (rewriter : Rewriter)
    (name : String) (hright : expr.isLeftFold = false)
    (hop : operators.lookup expr.op = some name) :
    VisitCXXFoldExpr sm expr rewriter
      = .ok (true, rewriter.ReplaceTextIncludingEndToken expr.range
          ("fold_expr_" ++ name ++ "_right("
            ++ GetClosedStringFor sm expr.pattern.getLocStart expr.pattern.getLocEnd ++ "..."
            ++ (match expr.init with
                | some init => ", " ++ GetClosedStringFor sm init.getLocStart init.getLocEnd
                | none => "")
            ++ ")")) := by
  have hg := operators_lookup_not_member_pointer expr.op name hop
  unfold VisitCXXFoldExpr operators_at
  simp only [hg, if_false, hop, hright, CXXFoldExpr.isRightFold]
  cases hi : expr.init <;> simp [String.append_assoc]

theorem TRY_TO_ok_true (rewriter : Rewriter)
    (next : Rewriter → Except Exception (Bool × Rewriter)) :
    TRY_TO (.ok (true, rewriter)) next = next rewriter := rfl

theorem TRY_TO_error (ex : Exception)
    (next : Rewriter → Except Exception (Bool × Rewriter)) :
    TRY_TO (.error ex) next = .error ex := rfl

theorem VisitStaticAssertDecl_ok (sm : SourceManager) (decl : StaticAssertDecl)
    (rewriter : Rewriter) :
    ∃ out, VisitStaticAssertDecl sm decl rewriter = .ok (true, out) := by
  unfold VisitStaticAssertDecl
  split
  · exact ⟨_, rfl⟩
  · exact ⟨_, rfl⟩

theorem TraverseNode_StaticAssertDecl (sm : SourceManager) (range : SourceRange)
    (assertExpr : Node) (message : Option SourceRange) (rewriter : Rewriter) :
    TraverseNode sm (.StaticAssertDecl range assertExpr message) rewriter
      = TRY_TO (VisitStaticAssertDecl sm ⟨range, assertExpr, message⟩ rewriter) fun mid =>
          TRY_TO (TraverseNode sm assertExpr mid) fun out => .ok (true, out) := by
  simp [TraverseNode, shouldTraversePostOrder]

mutual
theorem TraverseNode_true (sm : SourceManager) :
    ∀ (n : Node) (rewriter : Rewriter) (b : Bool) (out : Rewriter),
      TraverseNode sm n rewriter = .ok (b, out) → b = true
  | .CXXFoldExpr range op isLeftFold pattern init, rewriter, b, out, h => by
      simp only [TraverseNode, TraverseCXXFoldExpr] at h
      split at h
      · cases h
      · simp only [Except.ok.injEq, Prod.mk.injEq] at h
        exact h.1.symm
  | .StaticAssertDecl range assertExpr message, rewriter, b, out, h => by
      obtain ⟨mid, hmid⟩ := VisitStaticAssertDecl_ok sm ⟨range, assertExpr, message⟩ rewriter
      rw [TraverseNode_StaticAssertDecl, hmid, TRY_TO_ok_true] at h
      cases hc : TraverseNode sm assertExpr mid with
      | error ex => rw [hc, TRY_TO_error] at h; cases h
      | ok r =>
        obtain ⟨b1, out1⟩ := r
        have hb1 := TraverseNode_true sm assertExpr mid b1 out1 hc
        subst hb1
        rw [hc, TRY_TO_ok_true] at h
        simp only [Except.ok.injEq, Prod.mk.injEq] at h
        exact h.1.symm
  | .other _ children, rewriter, b, out, h => by
      simp only [TraverseNode] at h
      exact TraverseChildren_true sm children rewriter b out h
theorem TraverseChildren_true (sm : SourceManager) :
    ∀ (children : List Node) (rewriter : Rewriter) (b : Bool) (out : Rewriter),
      TraverseChildren sm children rewriter = .ok (b, out) → b = true
  | [], rewriter, b, out, h => by
      simp only [TraverseChildren, Except.ok.injEq, Prod.mk.injEq] at h
      exact h.1.symm
  | child :: rest, rewriter, b, out, h => by
      simp only [TraverseChildren] at h
      cases hc : TraverseNode sm child rewriter with
      | error ex => rw [hc, TRY_TO_error] at h; cases h
      | ok r =>
        obtain ⟨b1, out1⟩ := r
        have hb1 := TraverseNode_true sm child rewriter b1 out1 hc
        subst hb1
        rw [hc, TRY_TO_ok_true] at h
        exact TraverseChildren_true sm rest out1 b out h
end

mutual
theorem TraverseNode_member_pointer (sm : SourceManager) :
    ∀ (n : Node) (rewriter : Rewriter) (m : Node),
      m ∈ n.visited → m.isMemberPointerFold = true → ∃ ex, TraverseNode sm n rewriter = .error ex
  | .CXXFoldExpr range op isLeftFold pattern init, rewriter, m, hm, hp => by
      simp only [Node.visited, List.mem_singleton] at hm
      subst hm
      simp only [Node.isMemberPointerFold, Bool.or_eq_true, decide_eq_true_eq] at hp
      have hv := VisitCXXFoldExpr_member_pointer sm ⟨range, op, isLeftFold, pattern, init⟩ rewriter hp
      exact ⟨.runtime_error "Fold expressions on member access operators not supported, yet!",
        by simp only [TraverseNode, TraverseCXXFoldExpr, hv]⟩
  | .StaticAssertDecl range assertExpr message, rewriter, m, hm, hp => by
      obtain ⟨mid, hmid⟩ := VisitStaticAssertDecl_ok sm ⟨range, assertExpr, message⟩ rewriter
      simp only [Node.visited, List.mem_cons] at hm
      rcases hm with rfl | hm
      · simp [Node.isMemberPointerFold] at hp
      · obtain ⟨ex, hex⟩ := TraverseNode_member_pointer sm assertExpr mid m hm hp
        exact ⟨ex, by rw [TraverseNode_StaticAssertDecl, hmid, TRY_TO_ok_true, hex, TRY_TO_error]⟩
  | .other range children, rewriter, m, hm, hp => by
      simp only [Node.visited, List.mem_cons] at hm
      rcases hm with rfl | hm
      · simp [Node.isMemberPointerFold] at hp
      · simp only [TraverseNode]
        exact TraverseChildren_member_pointer sm children rewriter m hm hp
theorem TraverseChildren_member_pointer (sm : SourceManager) :
    ∀ (children : List Node) (rewriter : Rewriter) (m : Node),
      m ∈ visitedChildren children → m.isMemberPointerFold = true →
      ∃ ex, TraverseChildren sm children rewriter = .error ex
  | [], rewriter, m, hm, hp => by simp [visitedChildren] at hm
  | child :: rest, rewriter, m, hm, hp => by
      simp only [visitedChildren, List.mem_append] at hm
      simp only [TraverseChildren]
      cases hc : TraverseNode sm child rewriter with
      | error ex => exact ⟨ex, rfl⟩
      | ok r =>
        obtain ⟨b1, out1⟩ := r
        have hb1 := TraverseNode_true sm child rewriter b1 out1 hc
        subst hb1
        rcases hm with hm | hm
        · obtain ⟨ex, hex⟩ := TraverseNode_member_pointer sm child rewriter m hm hp
          rw [hex] at hc; cases hc
        · rw [TRY_TO_ok_true]
          exact TraverseChildren_member_pointer sm rest out1 m hm hp
end

theorem HandleTopLevelDecl_member_pointer (sm : SourceManager) :
    ∀ (ref : List Node) (rewriter : Rewriter) (decl m : Node),
      decl ∈ ref → m ∈ decl.visited → m.isMemberPointerFold = true →
      ∃ ex, HandleTopLevelDecl sm ref rewriter = .error ex
  | [], _, _, _, hd, _, _ => by cases hd
  | elem :: rest, rewriter, decl, m, hd, hm, hp => by
      simp only [HandleTopLevelDecl]
      cases hc : TraverseNode sm elem rewriter with
      | error ex => exact ⟨ex, rfl⟩
      | ok r =>
        obtain ⟨b1, out1⟩ := r
        rcases List.mem_cons.1 hd with rfl | hd
        · obtain ⟨ex, hex⟩ := TraverseNode_member_pointer sm decl rewriter m hm hp
          rw [hex] at hc; cases hc
        · exact HandleTopLevelDecl_member_pointer sm rest out1 decl m hd hm hp

theorem ParseAST_member_pointer (sm : SourceManager) :
    ∀ (tu : List (List Node)) (rewriter : Rewriter) (ref : List Node) (decl m : Node),
      ref ∈ tu → decl ∈ ref → m ∈ decl.visited → m.isMemberPointerFold = true →
      ∃ ex, ParseAST sm tu rewriter = .error ex
  | [], _, _, _, _, hr, _, _, _ => by cases hr
  | first :: rest, rewriter, ref, decl, m, hr, hd, hm, hp => by
      simp only [ParseAST]
      cases hc : HandleTopLevelDecl sm first rewriter with
      | error ex => exact ⟨ex, rfl⟩
      | ok out1 =>
        rcases List.mem_cons.1 hr with rfl | hr
        · obtain ⟨ex, hex⟩ := HandleTopLevelDecl_member_pointer sm ref rewriter decl m hd hm hp
          rw [hex] at hc; cases hc
        · exact ParseAST_member_pointer sm rest out1 ref decl m hr hd hm hp

mutual
theorem TraverseNode_noTarget (sm : SourceManager) :
    ∀ (n : Node) (rewriter : Rewriter), n.hasTarget = false →
      TraverseNode sm n rewriter = .ok (true, rewriter)
  | .CXXFoldExpr _ _ _ _ _, _, h => by simp [Node.hasTarget] at h
  | .StaticAssertDecl range assertExpr message, rewriter, h => by
      simp only [Node.hasTarget, Bool.or_eq_false_iff] at h
      have hv : VisitStaticAssertDecl sm ⟨range, assertExpr, message⟩ rewriter
          = .ok (true, rewriter) := by
        simp [VisitStaticAssertDecl, h.1]
      rw [TraverseNode_StaticAssertDecl, hv, TRY_TO_ok_true,
        TraverseNode_noTarget sm assertExpr rewriter h.2, TRY_TO_ok_true]
  | .other _ children, rewriter, h => by
      simp only [Node.hasTarget] at h
      simp only [TraverseNode]
      exact TraverseChildren_noTarget sm children rewriter h
theorem TraverseChildren_noTarget (sm : SourceManager) :
    ∀ (children : List Node) (rewriter : Rewriter), hasTargetChildren children = false →
      TraverseChildren sm children rewriter = .ok (true, rewriter)
  | [], _, _ => by simp only [TraverseChildren]
  | child :: rest, rewriter, h => by
      simp only [hasTargetChildren, Bool.or_eq_false_iff] at h
      simp only [TraverseChildren]
      rw [TraverseNode_noTarget sm child rewriter h.1, TRY_TO_ok_true]
      exact TraverseChildren_noTarget sm rest rewriter h.2
end

theorem HandleTopLevelDecl_noTarget (sm : SourceManager) :
    ∀ (ref : List Node) (rewriter : Rewriter), (∀ decl ∈ ref, decl.hasTarget = false) →
      HandleTopLevelDecl sm ref rewriter = .ok rewriter
  | [], _, _ => rfl
  | elem :: rest, rewriter, h => by
      simp only [HandleTopLevelDecl]
      rw [TraverseNode_noTarget sm elem rewriter (h elem (List.mem_cons_self _ _))]
      exact HandleTopLevelDecl_noTarget sm rest rewriter
        (fun decl hd => h decl (List.mem_cons_of_mem _ hd))

theorem ParseAST_noTarget (sm : SourceManager) :
    ∀ (tu : List (List Node)) (rewriter : Rewriter),
      (∀ ref ∈ tu, ∀ decl ∈ ref, decl.hasTarget = false) →
      ParseAST sm tu rewriter = .ok rewriter
  | [], _, _ => rfl
  | first :: rest, rewriter, h => by
      simp only [ParseAST]
      rw [HandleTopLevelDecl_noTarget sm first rewriter (h first (List.mem_cons_self _ _))]
      exact ParseAST_noTarget sm rest rewriter
        (fun ref hr => h ref (List.mem_cons_of_mem _ hr))

theorem VisitCXXFoldExpr_step4 (sm : SourceManager) (expr : CXXFoldExpr) (rewriter : Rewriter)
    (name : String) (hop : operators.lookup expr.op = some name) :
    VisitCXXFoldExpr sm expr rewriter
      = .ok (true, rewriter.ReplaceTextIncludingEndToken expr.range
          (step4Text name expr.isLeftFold (expr.patternText sm) (expr.initText sm))) := by
  cases hd : expr.isLeftFold
  · rw [VisitCXXFoldExpr_right sm expr rewriter name hd hop]
    cases hi : expr.init <;>
      simp [step4Text, CXXFoldExpr.patternText, CXXFoldExpr.initText, hi]
  · rw [VisitCXXFoldExpr_left sm expr rewriter name hd hop]
    cases hi : expr.init <;>
      simp [step4Text, CXXFoldExpr.patternText, CXXFoldExpr.initText, hi]

theorem VisitCXXFoldExpr_ok_inv (sm : SourceManager) (expr : CXXFoldExpr) (rewriter : Rewriter)
    (b : Bool) (out : Rewriter) (h : VisitCXXFoldExpr sm expr rewriter = .ok (b, out)) :
    ∃ name, operators.lookup expr.op = some name := by
  by_cases hg : expr.op = .BO_PtrMemD ∨ expr.op = .BO_PtrMemI
  · rw [VisitCXXFoldExpr_member_pointer sm expr rewriter hg] at h; cases h
  · cases hl : operators.lookup expr.op with
    | none =>
      unfold VisitCXXFoldExpr operators_at at h
      simp only [hg, if_false, hl] at h
      cases h
    | some name => exact ⟨name, rfl⟩

theorem operators_lookup_supported (op : BinaryOperatorKind)
    (hop : op ∈ supportedFoldOperators) :
    ∃ name, operators.lookup op = some name ∧ name ≠ ""
      ∧ name.data.all (fun c => c.isLower || c == '_') = true := by
  cases op <;>
    simp only [supportedFoldOperators, List.mem_cons, List.mem_singleton, reduceCtorEq,
      or_false, or_true, false_or, true_or, List.not_mem_nil] at hop <;>
    exact ⟨_, rfl, by decide, by decide⟩

theorem VisitStaticAssertDecl_editOf (sm : SourceManager) (range : SourceRange)
    (assertExpr : Node) (message : Option SourceRange) (rewriter : Rewriter) :
    VisitStaticAssertDecl sm ⟨range, assertExpr, message⟩ rewriter
      = .ok (true, ⟨rewriter.edits
          ++ [Node.StaticAssertDecl range assertExpr message].filterMap (Node.editOf sm)⟩) := by
  cases message <;>
    simp [VisitStaticAssertDecl, Node.editOf, Rewriter.ReplaceTextIncludingEndToken,
      List.filterMap_cons]

mutual
theorem TraverseNode_edits (sm : SourceManager) :
    ∀ (n : Node) (rewriter : Rewriter) (b : Bool) (out : Rewriter),
      TraverseNode sm n rewriter = .ok (b, out) →
      out.edits = rewriter.edits ++ n.visited.filterMap (Node.editOf sm)
  | .CXXFoldExpr range op isLeftFold pattern init, rewriter, b, out, h => by
      simp only [TraverseNode, TraverseCXXFoldExpr] at h
      cases hv : VisitCXXFoldExpr sm ⟨range, op, isLeftFold, pattern, init⟩ rewriter with
      | error ex => rw [hv] at h; cases h
      | ok r =>
        obtain ⟨name, hl⟩ := VisitCXXFoldExpr_ok_inv sm _ rewriter r.1 r.2 hv
        rw [VisitCXXFoldExpr_step4 sm _ rewriter name hl] at h
        simp only [Except.ok.injEq, Prod.mk.injEq] at h
        rw [← h.2]
        simp only [CXXFoldExpr.op] at hl
        simp [Node.visited, Node.editOf, hl, Rewriter.ReplaceTextIncludingEndToken,
          CXXFoldExpr.patternText, CXXFoldExpr.initText]
  | .StaticAssertDecl range assertExpr message, rewriter, b, out, h => by
      rw [TraverseNode_StaticAssertDecl, VisitStaticAssertDecl_editOf, TRY_TO_ok_true] at h
      cases hc : TraverseNode sm assertExpr
          ⟨rewriter.edits
            ++ [Node.StaticAssertDecl range assertExpr message].filterMap (Node.editOf sm)⟩ with
      | error ex => rw [hc, TRY_TO_error] at h; cases h
      | ok r =>
        obtain ⟨b1, out1⟩ := r
        have hb1 := TraverseNode_true sm assertExpr _ b1 out1 hc
        subst hb1
        rw [hc, TRY_TO_ok_true] at h
        simp only [Except.ok.injEq, Prod.mk.injEq] at h
        rw [← h.2, TraverseNode_edits sm assertExpr _ true out1 hc]
        simp only [Node.visited, List.filterMap_cons, List.filterMap_nil, List.append_assoc]
        cases Node.editOf sm (Node.StaticAssertDecl range assertExpr message) <;> simp
  | .other range children, rewriter, b, out, h => by
      simp only [TraverseNode] at h
      rw [TraverseChildren_edits sm children rewriter b out h]
      simp [Node.visited, Node.editOf, List.filterMap_cons]
theorem TraverseChildren_edits (sm : SourceManager) :
    ∀ (children : List Node) (rewriter : Rewriter) (b : Bool) (out : Rewriter),
      TraverseChildren sm children rewriter = .ok (b, out) →
      out.edits = rewriter.edits ++ (visitedChildren children).filterMap (Node.editOf sm)
  | [], rewriter, b, out, h => by
      simp only [TraverseChildren, Except.ok.injEq, Prod.mk.injEq] at h
      rw [← h.2]
      simp [visitedChildren]
  | child :: rest, rewriter, b, out, h => by
      simp only [TraverseChildren] at h
      cases hc : TraverseNode sm child rewriter with
      | error ex => rw [hc, TRY_TO_error] at h; cases h
      | ok r =>
        obtain ⟨b1, out1⟩ := r
        have hb1 := TraverseNode_true sm child rewriter b1 out1 hc
        subst hb1
        rw [hc, TRY_TO_ok_true] at h
        rw [TraverseChildren_edits sm rest out1 b out h,
          TraverseNode_edits sm child rewriter true out1 hc]
        simp [visitedChildren, List.filterMap_append]
end

theorem HandleTopLevelDecl_edits (sm : SourceManager) :
    ∀ (ref : List Node) (rewriter out : Rewriter),
      HandleTopLevelDecl sm ref rewriter = .ok out →
      out.edits = rewriter.edits ++ (ref.flatMap Node.visited).filterMap (Node.editOf sm)
  | [], rewriter, out, h => by
      simp only [HandleTopLevelDecl, Except.ok.injEq] at h
      rw [← h]; simp
  | elem :: rest, rewriter, out, h => by
      simp only [HandleTopLevelDecl] at h
      cases hc : TraverseNode sm elem rewriter with
      | error ex => rw [hc] at h; cases h
      | ok r =>
        obtain ⟨b1, out1⟩ := r
        rw [hc] at h
        rw [HandleTopLevelDecl_edits sm rest out1 out h,
          TraverseNode_edits sm elem rewriter b1 out1 hc]
        simp [List.flatMap_cons, List.filterMap_append]

theorem ParseAST_edits (sm : SourceManager) :
    ∀ (tu : List (List Node)) (rewriter out : Rewriter),
      ParseAST sm tu rewriter = .ok out →
      out.edits = rewriter.edits ++ (visitedFile tu).filterMap (Node.editOf sm)
  | [], rewriter, out, h => by
      simp only [ParseAST, Except.ok.injEq] at h
      rw [← h]; simp [visitedFile]
  | first :: rest, rewriter, out, h => by
      simp only [ParseAST] at h
      cases hc : HandleTopLevelDecl sm first rewriter with
      | error ex => rw [hc] at h; cases h
      | ok out1 =>
        rw [hc] at h
        rw [ParseAST_edits sm rest out1 out h, HandleTopLevelDecl_edits sm first rewriter out1 hc]
        simp [visitedFile, List.flatMap_append, List.filterMap_append]

/-! ## C1, C2: the replacement text of a fold expression -/

/-- C1: for every left fold whose operator is in the operator table under `name`, with
pattern text `P` and optional init text `I` sliced verbatim from the buffer,
`VisitCXXFoldExpr` hands the rewriter exactly the text
`"fold_expr_" ++ name ++ "_left(" ++ (I ++ ", " if an init is present) ++ P ++ "..." ++ ")"`
for the range of the fold; on `(0 + ... + args)` this is `fold_expr_add_left(0, args...)`. -/
theorem C1_left_fold_replacement :
    (∀ (sm : SourceManager) (expr : CXXFoldExpr) (rewriter : Rewriter) (name : String),
      expr.isLeftFold = true → operators.lookup expr.op = some name →
      VisitCXXFoldExpr sm expr rewriter
        = .ok (true, rewriter.ReplaceTextIncludingEndToken expr.range
            ("fold_expr_" ++ name ++ "_left("
              ++ (match expr.init with
                  | some init => GetClosedStringFor sm init.getLocStart init.getLocEnd ++ ", "
                  | none => "")
              ++ GetClosedStringFor sm expr.pattern.getLocStart expr.pattern.getLocEnd ++ "..."
              ++ ")")))
    ∧ VisitCXXFoldExpr (exampleSM "(0 + ... + args)")
        ⟨⟨0, 15⟩, .BO_Add, true, .other ⟨11, 11⟩ [], some (.other ⟨1, 1⟩ [])⟩ ⟨[]⟩
        = .ok (true, ⟨[⟨⟨0, 15⟩, "fold_expr_add_left(0, args...)"⟩]⟩) :=
  ⟨fun sm expr rewriter name hleft hop => VisitCXXFoldExpr_left sm expr rewriter name hleft hop,
   rfl⟩

/-- Witness of C1: the left fold `(0 + ... + args)`, operator `+` mapped to `add`, init `0`
at offset 1 and pattern `args` at offset 11. -/
theorem C1_left_fold_replacement_witness :
    operators.lookup .BO_Add = some "add"
    ∧ VisitCXXFoldExpr (exampleSM "(0 + ... + args)")
        ⟨⟨0, 15⟩, .BO_Add, true, .other ⟨11, 11⟩ [], some (.other ⟨1, 1⟩ [])⟩ ⟨[⟨⟨20, 20⟩, "x"⟩]⟩
        = .ok (true, ⟨[⟨⟨20, 20⟩, "x"⟩, ⟨⟨0, 15⟩, "fold_expr_add_left(0, args...)"⟩]⟩) :=
  ⟨rfl, (C1_left_fold_replacement.1 (exampleSM "(0 + ... + args)")
      ⟨⟨0, 15⟩, .BO_Add, true, .other ⟨11, 11⟩ [], some (.other ⟨1, 1⟩ [])⟩ ⟨[⟨⟨20, 20⟩, "x"⟩]⟩
      "add" rfl rfl).trans rfl⟩

/-- C2: for every right fold whose operator is in the operator table under `name`, with
pattern text `P` and optional init text `I` sliced verbatim from the buffer,
`VisitCXXFoldExpr` hands the rewriter exactly the text
`"fold_expr_" ++ name ++ "_right(" ++ P ++ "..." ++ (", " ++ I if an init is present) ++ ")"`
for the range of the fold; `(args + ...)` gives `fold_expr_add_right(args...)` and
`(args + ... + 0)` gives `fold_expr_add_right(args..., 0)`. -/
theorem C2_right_fold_replacement :
    (∀ (sm : SourceManager) (expr : CXXFoldExpr) (rewriter : Rewriter) (name : String),
      expr.isLeftFold = false → operators.lookup expr.op = some name →
      VisitCXXFoldExpr sm expr rewriter
        = .ok (true, rewriter.ReplaceTextIncludingEndToken expr.range
            ("fold_expr_" ++ name ++ "_right("
              ++ GetClosedStringFor sm expr.pattern.getLocStart expr.pattern.getLocEnd ++ "..."
              ++ (match expr.init with
                  | some init => ", " ++ GetClosedStringFor sm init.getLocStart init.getLocEnd
                  | none => "")
              ++ ")")))
    ∧ VisitCXXFoldExpr (exampleSM "(args + ...)")
        ⟨⟨0, 11⟩, .BO_Add, false, .other ⟨1, 1⟩ [], none⟩ ⟨[]⟩
        = .ok (true, ⟨[⟨⟨0, 11⟩, "fold_expr_add_right(args...)"⟩]⟩)
    ∧ VisitCXXFoldExpr (exampleSM "(args + ... + 0)")
        ⟨⟨0, 15⟩, .BO_Add, false, .other ⟨1, 1⟩ [], some (.other ⟨14, 14⟩ [])⟩ ⟨[]⟩
        = .ok (true, ⟨[⟨⟨0, 15⟩, "fold_expr_add_right(args..., 0)"⟩]⟩) :=
  ⟨fun sm expr rewriter name hright hop => VisitCXXFoldExpr_right sm expr rewriter name hright hop,
   rfl, rfl⟩

/-- Witness of C2: the right fold `(args + ... + 0)`, operator `+` mapped to `add`, pattern
`args` at offset 1 and init `0` at offset 14. -/
theorem C2_right_fold_replacement_witness :
    operators.lookup .BO_Add = some "add"
    ∧ VisitCXXFoldExpr (exampleSM "(args + ... + 0)")
        ⟨⟨0, 15⟩, .BO_Add, false, .other ⟨1, 1⟩ [], some (.other ⟨14, 14⟩ [])⟩ ⟨[⟨⟨20, 20⟩, "x"⟩]⟩
        = .ok (true, ⟨[⟨⟨20, 20⟩, "x"⟩, ⟨⟨0, 15⟩, "fold_expr_add_right(args..., 0)"⟩]⟩) :=
  ⟨rfl, (C2_right_fold_replacement.1 (exampleSM "(args + ... + 0)")
      ⟨⟨0, 15⟩, .BO_Add, false, .other ⟨1, 1⟩ [], some (.other ⟨14, 14⟩ [])⟩ ⟨[⟨⟨20, 20⟩, "x"⟩]⟩
      "add" rfl rfl).trans rfl⟩

/-! ## C3: fold expressions over member-pointer access -/

/-- C3: for every fold expression whose operator is `.*` or `->*`, whatever its direction,
pattern and init, `VisitCXXFoldExpr` (and so `TraverseCXXFoldExpr`) throws the
`runtime_error` of the guard and returns no rewriter, hence no replacement; the guard comes
before the table lookup, which on the same operator would have thrown `out_of_range`.  And
every run over a file in which the traversal reaches such a fold expression ends in an
exception, so nothing is emitted for the file. -/
theorem C3_member_pointer_fold_fails :
    (∀ (sm : SourceManager) (expr : CXXFoldExpr) (rewriter : Rewriter),
      expr.op = .BO_PtrMemD ∨ expr.op = .BO_PtrMemI →
        VisitCXXFoldExpr sm expr rewriter
            = .error (.runtime_error
                "Fold expressions on member access operators not supported, yet!")
          ∧ operators_at expr.op = .error .out_of_range
          ∧ TraverseCXXFoldExpr sm expr rewriter
            = .error (.runtime_error
                "Fold expressions on member access operators not supported, yet!"))
    ∧ (∀ (sm : SourceManager) (tu : List (List Node)) (ref : List Node) (decl m : Node),
        ref ∈ tu → decl ∈ ref → m ∈ decl.visited → m.isMemberPointerFold = true →
        ∃ ex, runTool sm tu = .error ex) := by
  refine ⟨fun sm expr rewriter h => ⟨VisitCXXFoldExpr_member_pointer sm expr rewriter h, ?_, ?_⟩,
    fun sm tu ref decl m hr hd hm hp => ?_⟩
  · rcases h with h | h <;> rw [h] <;> rfl
  · simp only [TraverseCXXFoldExpr, VisitCXXFoldExpr_member_pointer sm expr rewriter h]
  · obtain ⟨ex, hex⟩ := ParseAST_member_pointer sm tu ⟨[]⟩ ref decl m hr hd hm hp
    exact ⟨ex, by simp only [runTool, hex]⟩

/-- Witness of C3: the left fold `(obj .* ... .* args)`, alone and as the only expression
of a file. -/
theorem C3_member_pointer_fold_fails_witness :
    memberPointerFold.isMemberPointerFold = true
    ∧ VisitCXXFoldExpr (exampleSM "(obj .* ... .* args)")
        ⟨⟨0, 19⟩, .BO_PtrMemD, true, .other ⟨15, 15⟩ [], some (.other ⟨1, 1⟩ [])⟩ ⟨[]⟩
        = .error (.runtime_error
            "Fold expressions on member access operators not supported, yet!")
    ∧ ∃ ex, runTool (exampleSM "(obj .* ... .* args)")
        [[.other ⟨0, 19⟩ [memberPointerFold]]] = .error ex :=
  ⟨rfl,
   (C3_member_pointer_fold_fails.1 (exampleSM "(obj .* ... .* args)")
      ⟨⟨0, 19⟩, .BO_PtrMemD, true, .other ⟨15, 15⟩ [], some (.other ⟨1, 1⟩ [])⟩ ⟨[]⟩
      (Or.inl rfl)).1,
   C3_member_pointer_fold_fails.2 (exampleSM "(obj .* ... .* args)")
      [[.other ⟨0, 19⟩ [memberPointerFold]]] [.other ⟨0, 19⟩ [memberPointerFold]]
      (.other ⟨0, 19⟩ [memberPointerFold]) memberPointerFold
      (List.mem_singleton.2 rfl) (List.mem_singleton.2 rfl)
      (by simp [Node.visited, visitedChildren, memberPointerFold]) rfl⟩

/-! ## C4: static assertions without a message -/

/-- C4: for every static assertion without a message, with condition text `C` sliced
verbatim from the buffer, `VisitStaticAssertDecl` makes exactly one edit, for the full range
of the declaration, with the text `"static_assert(" ++ C ++ ", \"\")"`; on
`static_assert(cond)` the text is `static_assert(cond, "")`. -/
theorem C4_static_assert_without_message :
    (∀ (sm : SourceManager) (decl : StaticAssertDecl) (rewriter : Rewriter),
      decl.message = none →
      VisitStaticAssertDecl sm decl rewriter
        = .ok (true, ⟨rewriter.edits ++ [⟨decl.range,
            "static_assert("
              ++ GetClosedStringFor sm decl.assertExpr.getLocStart decl.assertExpr.getLocEnd
              ++ ", \"\")"⟩]⟩))
    ∧ VisitStaticAssertDecl (exampleSM "static_assert(cond);")
        ⟨⟨0, 18⟩, .other ⟨14, 14⟩ [], none⟩ ⟨[]⟩
        = .ok (true, ⟨[⟨⟨0, 18⟩, "static_assert(cond, \"\")"⟩]⟩) := by
  refine ⟨fun sm decl rewriter h => ?_, rfl⟩
  simp [VisitStaticAssertDecl, h, Rewriter.ReplaceTextIncludingEndToken]

/-- Witness of C4: `static_assert(cond);`, the declaration from offset 0 to the closing
parenthesis at 18 and the condition `cond` at 14, after an earlier edit. -/
theorem C4_static_assert_without_message_witness :
    VisitStaticAssertDecl (exampleSM "static_assert(cond);")
        ⟨⟨0, 18⟩, .other ⟨14, 14⟩ [], none⟩ ⟨[⟨⟨30, 30⟩, "x"⟩]⟩
      = .ok (true, ⟨[⟨⟨30, 30⟩, "x"⟩, ⟨⟨0, 18⟩, "static_assert(cond, \"\")"⟩]⟩) :=
  (C4_static_assert_without_message.1 (exampleSM "static_assert(cond);")
      ⟨⟨0, 18⟩, .other ⟨14, 14⟩ [], none⟩ ⟨[⟨⟨30, 30⟩, "x"⟩]⟩ rfl).trans rfl

/-! ## C5: a file without targets is emitted unchanged -/

/-- C5: for every file whose trees contain no fold expression and no static assertion
without a message, one pass makes no edit and the text emitted is the input buffer. -/
theorem C5_no_target_identity (sm : SourceManager) (tu : List (List Node))
    (h : ∀ ref ∈ tu, ∀ decl ∈ ref, decl.hasTarget = false) :
    ParseAST sm tu ⟨[]⟩ = .ok ⟨[]⟩ ∧ runTool sm tu = .ok sm.buffer := by
  have hp := ParseAST_noTarget sm tu ⟨[]⟩ h
  refine ⟨hp, ?_⟩
  simp only [runTool, hp, EndSourceFileAction, Rewriter.write, List.foldr_nil]

/-- Witness of C5: the namespace `n` holding `static_assert(cond, "msg");`, an assertion that
already has a message (the namespace from offset 0 to its closing brace at 42). -/
theorem C5_no_target_identity_witness :
    (Node.other ⟨0, 42⟩ [.StaticAssertDecl ⟨14, 39⟩ (.other ⟨28, 28⟩ []) (some ⟨34, 34⟩)]).hasTarget
      = false
    ∧ runTool (exampleSM "namespace n \x7b static_assert(cond, \"msg\"); \x7d")
        [[.other ⟨0, 42⟩ [.StaticAssertDecl ⟨14, 39⟩ (.other ⟨28, 28⟩ []) (some ⟨34, 34⟩)]]]
      = .ok "namespace n \x7b static_assert(cond, \"msg\"); \x7d" :=
  ⟨rfl,
   (C5_no_target_identity (exampleSM "namespace n \x7b static_assert(cond, \"msg\"); \x7d")
      [[.other ⟨0, 42⟩ [.StaticAssertDecl ⟨14, 39⟩ (.other ⟨28, 28⟩ []) (some ⟨34, 34⟩)]]]
      (by
        intro ref hr decl hd
        rw [List.mem_singleton.1 hr] at hd
        rw [List.mem_singleton.1 hd]
        rfl)).2⟩

/-! ## C6: edits of one pass on nested targets -/

/-- C6, evaluated where it fails: in `nestedAssertBuffer` the ranges of the tree are nested
child inside parent, the pass rewrites the static assertion without message and then, having
descended into its condition, the fold expression inside it; the two edits target
overlapping ranges (the second lies inside the first). -/
theorem C6_nested_assert_edits_overlap :
    nestedAssertTree.wellNested (exampleSM nestedAssertBuffer) = true
    ∧ ParseAST (exampleSM nestedAssertBuffer) [[nestedAssertTree]] ⟨[]⟩
        = .ok ⟨[⟨⟨34, 61⟩, "static_assert((args && ...), \"\")"⟩,
                ⟨⟨48, 60⟩, "fold_expr_land_right(args...)"⟩]⟩
    ∧ SourceRange.overlaps (exampleSM nestedAssertBuffer) ⟨34, 61⟩ ⟨48, 60⟩ = true
    ∧ SourceRange.inside (exampleSM nestedAssertBuffer) ⟨48, 60⟩ ⟨34, 61⟩ = true :=
  ⟨by decide, rfl, by decide, by decide⟩

/-! ## C7: the operator table covers the supported fold operators -/

/-- C7: each of the 30 fold operators other than `.*` and `->*` (every operator kind but
these two and the three-way comparison, which is no fold operator) is found in the operator
table, under a non-empty name of lowercase letters and underscores (`+` is `add`, `=` is
`assign`, `&&` is `land`), and `VisitCXXFoldExpr` rewrites every left fold and every right
fold on such an operator, without failure, to the text of step 4. -/
theorem C7_operator_table_total :
    supportedFoldOperators.length = 30
    ∧ (∀ op, op ∈ supportedFoldOperators
        ↔ op ≠ .BO_PtrMemD ∧ op ≠ .BO_PtrMemI ∧ op ≠ .BO_Cmp)
    ∧ (∀ op ∈ supportedFoldOperators,
        ∃ name, operators_at op = .ok name ∧ name ≠ ""
          ∧ (∀ c ∈ name.data, c.isLower = true ∨ c = '_')
          ∧ (∀ (sm : SourceManager) (expr : CXXFoldExpr) (rewriter : Rewriter),
              expr.op = op → expr.isLeftFold = true →
              VisitCXXFoldExpr sm expr rewriter
                = .ok (true, rewriter.ReplaceTextIncludingEndToken expr.range
                    (step4Text name true (expr.patternText sm) (expr.initText sm))))
          ∧ (∀ (sm : SourceManager) (expr : CXXFoldExpr) (rewriter : Rewriter),
              expr.op = op → expr.isLeftFold = false →
              VisitCXXFoldExpr sm expr rewriter
                = .ok (true, rewriter.ReplaceTextIncludingEndToken expr.range
                    (step4Text name false (expr.patternText sm) (expr.initText sm)))))
    ∧ operators_at .BO_Add = .ok "add" ∧ operators_at .BO_Assign = .ok "assign"
    ∧ operators_at .BO_LAnd = .ok "land" := by
  refine ⟨rfl, fun op => ?_, fun op hop => ?_, rfl, rfl, rfl⟩
  · cases op <;> decide
  obtain ⟨name, hl, hne, hall⟩ := operators_lookup_supported op hop
  refine ⟨name, by simp only [operators_at, hl], hne, fun c hc => ?_, ?_, ?_⟩
  · have := List.all_eq_true.1 hall c hc
    simpa using this
  · intro sm expr rewriter hop hd
    rw [← hop] at hl
    rw [VisitCXXFoldExpr_step4 sm expr rewriter name hl, hd]
  · intro sm expr rewriter hop hd
    rw [← hop] at hl
    rw [VisitCXXFoldExpr_step4 sm expr rewriter name hl, hd]

/-- Witness of C7: the operator `&&`, with the right fold `(args && ...)` and the left
fold `(... && args)`. -/
theorem C7_operator_table_total_witness :
    BinaryOperatorKind.BO_LAnd ∈ supportedFoldOperators
    ∧ ∃ name, operators_at .BO_LAnd = .ok name ∧ name ≠ ""
        ∧ VisitCXXFoldExpr (exampleSM "(args && ...)")
            ⟨⟨0, 12⟩, .BO_LAnd, false, .other ⟨1, 1⟩ [], none⟩ ⟨[]⟩
          = .ok (true, ⟨[⟨⟨0, 12⟩, step4Text name false "args" none⟩]⟩)
        ∧ VisitCXXFoldExpr (exampleSM "(... && args)")
            ⟨⟨0, 12⟩, .BO_LAnd, true, .other ⟨8, 8⟩ [], none⟩ ⟨[]⟩
          = .ok (true, ⟨[⟨⟨0, 12⟩, step4Text name true "args" none⟩]⟩) :=
  ⟨by decide,
   (C7_operator_table_total.2.2.1 .BO_LAnd (by decide)).elim fun name h =>
     ⟨name, h.1, h.2.1,
      h.2.2.2.2 (exampleSM "(args && ...)")
        ⟨⟨0, 12⟩, .BO_LAnd, false, .other ⟨1, 1⟩ [], none⟩ ⟨[]⟩ rfl rfl,
      h.2.2.2.1 (exampleSM "(... && args)")
        ⟨⟨0, 12⟩, .BO_LAnd, true, .other ⟨8, 8⟩ [], none⟩ ⟨[]⟩ rfl rfl⟩⟩

/-! ## C8: what a single rewrite leaves of the buffer -/

/-- C8: after a successful rewrite of a single node, a fold expression or a static assertion
without message, with range `(B, E)`, the text emitted is the original text before `B`,
followed by the replacement, followed by the original text after the end of the token that
starts at `E`. -/
theorem C8_single_rewrite_frame (sm : SourceManager) :
    (∀ (expr : CXXFoldExpr) (out : Rewriter),
      VisitCXXFoldExpr sm expr ⟨[]⟩ = .ok (true, out) →
      ∃ replacement, out.edits = [⟨expr.range, replacement⟩]
        ∧ EndSourceFileAction sm out
          = ⟨sm.buffer.data.take expr.range.B⟩ ++ replacement
              ++ ⟨sm.buffer.data.drop (getLocForEndOfToken sm expr.range.E)⟩)
    ∧ (∀ (decl : StaticAssertDecl) (out : Rewriter), decl.message = none →
      VisitStaticAssertDecl sm decl ⟨[]⟩ = .ok (true, out) →
      ∃ replacement, out.edits = [⟨decl.range, replacement⟩]
        ∧ EndSourceFileAction sm out
          = ⟨sm.buffer.data.take decl.range.B⟩ ++ replacement
              ++ ⟨sm.buffer.data.drop (getLocForEndOfToken sm decl.range.E)⟩)
    ∧ (∀ (tu : List (List Node)) (edit : Edit),
      ParseAST sm tu ⟨[]⟩ = .ok ⟨[edit]⟩ →
      runTool sm tu
        = .ok (⟨sm.buffer.data.take edit.range.B⟩ ++ edit.text
            ++ ⟨sm.buffer.data.drop (getLocForEndOfToken sm edit.range.E)⟩)) := by
  refine ⟨fun expr out h => ?_, fun decl out hm h => ?_, fun tu edit h => ?_⟩
  · obtain ⟨name, hl⟩ := VisitCXXFoldExpr_ok_inv sm expr ⟨[]⟩ true out h
    rw [VisitCXXFoldExpr_step4 sm expr ⟨[]⟩ name hl] at h
    simp only [Except.ok.injEq, Prod.mk.injEq, true_and] at h
    subst h
    refine ⟨_, rfl, ?_⟩
    apply String.ext
    simp [EndSourceFileAction, Rewriter.write, Rewriter.ReplaceTextIncludingEndToken]
  · simp only [VisitStaticAssertDecl, hm, Option.isNone_none, if_true, Except.ok.injEq,
      Prod.mk.injEq, true_and] at h
    subst h
    refine ⟨_, rfl, ?_⟩
    apply String.ext
    simp [EndSourceFileAction, Rewriter.write, Rewriter.ReplaceTextIncludingEndToken]
  · simp only [runTool, h, Except.ok.injEq]
    apply String.ext
    simp [EndSourceFileAction, Rewriter.write]

/-- Witness of C8: the file `int x = (args + ...);`, whose only target is the right fold
from offset 8 to the closing parenthesis at 19, and the file `static_assert(cond);`. -/
theorem C8_single_rewrite_frame_witness :
    (ParseAST (exampleSM "int x = (args + ...);")
        [[.other ⟨0, 19⟩ [.CXXFoldExpr ⟨8, 19⟩ .BO_Add false (.other ⟨9, 9⟩ []) none]]] ⟨[]⟩
      = .ok ⟨[⟨⟨8, 19⟩, "fold_expr_add_right(args...)"⟩]⟩
    ∧ runTool (exampleSM "int x = (args + ...);")
        [[.other ⟨0, 19⟩ [.CXXFoldExpr ⟨8, 19⟩ .BO_Add false (.other ⟨9, 9⟩ []) none]]]
      = .ok "int x = fold_expr_add_right(args...);")
    ∧ (∃ replacement,
        [(⟨⟨8, 19⟩, "fold_expr_add_right(args...)"⟩ : Edit)] = [⟨⟨8, 19⟩, replacement⟩]
        ∧ EndSourceFileAction (exampleSM "int x = (args + ...);")
            ⟨[⟨⟨8, 19⟩, "fold_expr_add_right(args...)"⟩]⟩
          = "int x = " ++ replacement ++ ";")
    ∧ (∃ replacement,
        [(⟨⟨0, 18⟩, "static_assert(cond, \"\")"⟩ : Edit)] = [⟨⟨0, 18⟩, replacement⟩]
        ∧ EndSourceFileAction (exampleSM "static_assert(cond);")
            ⟨[⟨⟨0, 18⟩, "static_assert(cond, \"\")"⟩]⟩
          = "" ++ replacement ++ ";") :=
  ⟨⟨rfl,
    ((C8_single_rewrite_frame (exampleSM "int x = (args + ...);")).2.2
      [[.other ⟨0, 19⟩ [.CXXFoldExpr ⟨8, 19⟩ .BO_Add false (.other ⟨9, 9⟩ []) none]]]
      ⟨⟨8, 19⟩, "fold_expr_add_right(args...)"⟩ rfl).trans rfl⟩,
   (C8_single_rewrite_frame (exampleSM "int x = (args + ...);")).1
      ⟨⟨8, 19⟩, .BO_Add, false, .other ⟨9, 9⟩ [], none⟩
      ⟨[⟨⟨8, 19⟩, "fold_expr_add_right(args...)"⟩]⟩ rfl,
   (C8_single_rewrite_frame (exampleSM "static_assert(cond);")).2.1
      ⟨⟨0, 18⟩, .other ⟨14, 14⟩ [], none⟩
      ⟨[⟨⟨0, 18⟩, "static_assert(cond, \"\")"⟩]⟩ rfl rfl⟩

/-! ## C9: a fold expression is visited without its subtree -/

/-- C9 fails as stated: the fold `(obj .* ... .* args)` is reached by the traversal of its
file, yet the pass makes no edit for it: the traversal of the node, and with it the run,
ends in the exception of the member-pointer guard. -/
theorem C9_counterexample :
    memberPointerFold ∈ (Node.other ⟨0, 19⟩ [memberPointerFold]).visited
    ∧ TraverseNode (exampleSM "(obj .* ... .* args)") memberPointerFold ⟨[]⟩
        = .error (.runtime_error
            "Fold expressions on member access operators not supported, yet!")
    ∧ runTool (exampleSM "(obj .* ... .* args)") [[.other ⟨0, 19⟩ [memberPointerFold]]]
        = .error (.runtime_error
            "Fold expressions on member access operators not supported, yet!") :=
  ⟨by simp [Node.visited, visitedChildren, memberPointerFold], rfl, rfl⟩

/-- C9, amended: for every fold expression whose operator is in the operator table, whatever
its pattern and init subtrees contain, the traversal reaches the node alone, and traversing
it succeeds with exactly one more edit: the range of the fold, replaced by the text of step 4
built from the pattern and init text sliced from the original buffer.  Nothing inside the
pattern or the init is visited, so nothing there is edited in this pass: the edits of a pass
that succeeds are, in order, the edits of the nodes it reaches, one for each fold expression
and each static assertion without message among them. -/
theorem C9_fold_traversed_alone :
    (∀ (sm : SourceManager) (range : SourceRange) (op : BinaryOperatorKind) (isLeftFold : Bool)
        (pattern : Node) (init : Option Node) (rewriter : Rewriter) (name : String),
      operators.lookup op = some name →
      (Node.CXXFoldExpr range op isLeftFold pattern init).visited
        = [Node.CXXFoldExpr range op isLeftFold pattern init]
      ∧ TraverseNode sm (.CXXFoldExpr range op isLeftFold pattern init) rewriter
        = .ok (true, ⟨rewriter.edits ++ [⟨range,
            step4Text name isLeftFold
              (GetClosedStringFor sm pattern.getLocStart pattern.getLocEnd)
              (init.map fun i => GetClosedStringFor sm i.getLocStart i.getLocEnd)⟩]⟩))
    ∧ (∀ (sm : SourceManager) (tu : List (List Node)) (out : Rewriter),
      ParseAST sm tu ⟨[]⟩ = .ok out →
      out.edits = (visitedFile tu).filterMap (Node.editOf sm)) := by
  refine ⟨fun sm range op isLeftFold pattern init rewriter name hop =>
    ⟨by simp only [Node.visited], ?_⟩, fun sm tu out h => ?_⟩
  · simp only [TraverseNode, TraverseCXXFoldExpr]
    rw [VisitCXXFoldExpr_step4 sm ⟨range, op, isLeftFold, pattern, init⟩ rewriter name hop]
    rfl
  · rw [ParseAST_edits sm tu ⟨[]⟩ out h, List.nil_append]

/-- Witness of C9: the left fold `(0 + ... + (args * ...))`, whose pattern is itself a fold
expression: one edit, for the outer fold, with the inner fold left verbatim in its text. -/
theorem C9_fold_traversed_alone_witness :
    operators.lookup .BO_Add = some "add"
    ∧ TraverseNode (exampleSM "(0 + ... + (args * ...))")
        (.CXXFoldExpr ⟨0, 23⟩ .BO_Add true
          (.CXXFoldExpr ⟨11, 22⟩ .BO_Mul false (.other ⟨12, 12⟩ []) none)
          (some (.other ⟨1, 1⟩ []))) ⟨[]⟩
      = .ok (true, ⟨[⟨⟨0, 23⟩, "fold_expr_add_left(0, (args * ...)...)"⟩]⟩)
    ∧ (⟨[⟨⟨0, 23⟩, "fold_expr_add_left(0, (args * ...)...)"⟩]⟩ : Rewriter).edits
      = (visitedFile [[.CXXFoldExpr ⟨0, 23⟩ .BO_Add true
          (.CXXFoldExpr ⟨11, 22⟩ .BO_Mul false (.other ⟨12, 12⟩ []) none)
          (some (.other ⟨1, 1⟩ []))]]).filterMap
            (Node.editOf (exampleSM "(0 + ... + (args * ...))")) :=
  ⟨rfl,
   ((C9_fold_traversed_alone.1 (exampleSM "(0 + ... + (args * ...))") ⟨0, 23⟩ .BO_Add true
      (.CXXFoldExpr ⟨11, 22⟩ .BO_Mul false (.other ⟨12, 12⟩ []) none)
      (some (.other ⟨1, 1⟩ [])) ⟨[]⟩ "add" rfl).2).trans rfl,
   C9_fold_traversed_alone.2 (exampleSM "(0 + ... + (args * ...))")
      [[.CXXFoldExpr ⟨0, 23⟩ .BO_Add true
          (.CXXFoldExpr ⟨11, 22⟩ .BO_Mul false (.other ⟨12, 12⟩ []) none)
          (some (.other ⟨1, 1⟩ []))]]
      ⟨[⟨⟨0, 23⟩, "fold_expr_add_left(0, (args * ...)...)"⟩]⟩ rfl⟩

/-! ## C11: the call name determines operator and direction -/

theorem lookup_mem {α β : Type} [BEq α] [LawfulBEq α] (a : α) (b : β) :
    ∀ (l : List (α × β)), l.lookup a = some b → (a, b) ∈ l
  | [], h => by simp at h
  | (k, v) :: rest, h => by
      rw [List.lookup_cons] at h
      cases hk : a == k with
      | true =>
        rw [hk] at h
        simp only [Option.some.injEq] at h
        have := eq_of_beq hk
        subst this; subst h
        exact List.mem_cons_self _ _
      | false =>
        rw [hk] at h
        exact List.mem_cons_of_mem _ (lookup_mem a b rest h)

set_option maxRecDepth 100000 in
theorem callNamesDistinct_true : callNamesDistinct = true := by decide

theorem callName_eq_iff (p q : BinaryOperatorKind × String) (hp : p ∈ operators)
    (hq : q ∈ operators) (d1 d2 : Bool) :
    callName p.2 d1 = callName q.2 d2 ↔ p.1 = q.1 ∧ d1 = d2 := by
  have h := callNamesDistinct_true
  simp only [callNamesDistinct, List.all_eq_true] at h
  have h1 := h p hp q hq d1 (by cases d1 <;> simp) d2 (by cases d2 <;> simp)
  by_cases hc : callName p.2 d1 = callName q.2 d2
  · simp only [hc, beq_self_eq_true, Bool.true_beq, Bool.and_eq_true, beq_iff_eq] at h1
    exact ⟨fun _ => h1, fun _ => hc⟩
  · have hf : (callName p.2 d1 == callName q.2 d2) = false := by simpa using hc
    simp only [hf, Bool.false_beq, Bool.not_eq_true', Bool.and_eq_false_iff,
      beq_eq_false_iff_ne, ne_eq] at h1
    refine ⟨fun h2 => absurd h2 hc, fun h2 => ?_⟩
    rcases h1 with h1 | h1
    · exact absurd h2.1 h1
    · exact absurd h2.2 h1

theorem step4Text_callName (name : String) (isLeftFold : Bool) (P : String) (I : Option String) :
    ∃ args, step4Text name isLeftFold P I = callName name isLeftFold ++ "(" ++ args := by
  cases isLeftFold
  · refine ⟨P ++ "..." ++ (match I with
        | some init => ", " ++ init
        | none => "") ++ ")", ?_⟩
    apply String.ext
    simp [step4Text, callName]
  · refine ⟨(match I with
        | some init => init ++ ", "
        | none => "") ++ P ++ "..." ++ ")", ?_⟩
    apply String.ext
    simp [step4Text, callName]

/-- C11: for two folds on operators of the table, the call names
`"fold_expr_" ++ name(op) ++ "_left"` / `"_right"` are equal if and only if the operators are
equal and the directions are equal; so the table is injective, and `add` and `add_assign`
never give the same call name.  The call name is the text `VisitCXXFoldExpr` builds up to
the opening parenthesis. -/
theorem C11_call_name_unique :
    (∀ (op1 op2 : BinaryOperatorKind) (n1 n2 : String) (d1 d2 : Bool),
      operators.lookup op1 = some n1 → operators.lookup op2 = some n2 →
      (callName n1 d1 = callName n2 d2 ↔ op1 = op2 ∧ d1 = d2))
    ∧ (∀ (op1 op2 : BinaryOperatorKind) (n : String),
      operators.lookup op1 = some n → operators.lookup op2 = some n → op1 = op2)
    ∧ (∀ d1 d2 : Bool, callName "add" d1 ≠ callName "add_assign" d2)
    ∧ (∀ (sm : SourceManager) (expr : CXXFoldExpr) (rewriter : Rewriter) (name : String),
      operators.lookup expr.op = some name →
      ∃ args, VisitCXXFoldExpr sm expr rewriter
        = .ok (true, rewriter.ReplaceTextIncludingEndToken expr.range
            (callName name expr.isLeftFold ++ "(" ++ args))) := by
  have main : ∀ (op1 op2 : BinaryOperatorKind) (n1 n2 : String) (d1 d2 : Bool),
      operators.lookup op1 = some n1 → operators.lookup op2 = some n2 →
      (callName n1 d1 = callName n2 d2 ↔ op1 = op2 ∧ d1 = d2) :=
    fun op1 op2 n1 n2 d1 d2 h1 h2 =>
      callName_eq_iff (op1, n1) (op2, n2) (lookup_mem op1 n1 operators h1)
        (lookup_mem op2 n2 operators h2) d1 d2
  refine ⟨main, fun op1 op2 n h1 h2 => ((main op1 op2 n n true true h1 h2).1 rfl).1,
    fun d1 d2 h => ?_, fun sm expr rewriter name hop => ?_⟩
  · have := ((main .BO_Add .BO_AddAssign "add" "add_assign" d1 d2 rfl rfl).1 h).1
    cases this
  · obtain ⟨args, hargs⟩ :=
      step4Text_callName name expr.isLeftFold (expr.patternText sm) (expr.initText sm)
    exact ⟨args, by rw [VisitCXXFoldExpr_step4 sm expr rewriter name hop, hargs]⟩

/-- Witness of C11: `+` against `+=`, left against right. -/
theorem C11_call_name_unique_witness :
    operators.lookup .BO_Add = some "add" ∧ operators.lookup .BO_AddAssign = some "add_assign"
    ∧ (callName "add" true = callName "add_assign" false
        ↔ BinaryOperatorKind.BO_Add = BinaryOperatorKind.BO_AddAssign ∧ true = false)
    ∧ callName "add" true = "fold_expr_add_left"
    ∧ callName "add_assign" false = "fold_expr_add_assign_right" :=
  ⟨rfl, rfl,
   C11_call_name_unique.1 .BO_Add .BO_AddAssign "add" "add_assign" true false rfl rfl,
   by decide, by decide⟩

/-! ## C12: the source slicer -/

/-- C12 fails as stated: in the buffer `args`, with `end` at the token `args` (offset 0) and
`begin` at offset 2, `begin` is not after the end of the token (offset 4), yet the result
`gs` does not contain the character `a` of the final token. -/
theorem C12_counterexample :
    2 ≤ getLocForEndOfToken (exampleSM "args") 0
    ∧ getLocForEndOfToken (exampleSM "args") 0 ≤ (exampleSM "args").buffer.data.length
    ∧ tokenText (exampleSM "args") 0 = "args"
    ∧ GetClosedStringFor (exampleSM "args") 2 0 = "gs"
    ∧ 'a' ∈ (tokenText (exampleSM "args") 0).data
    ∧ 'a' ∉ (GetClosedStringFor (exampleSM "args") 2 0).data := by
  decide

/-- C12, amended: for positions `begin` and `end` with `begin` not after the end of the token
starting at `end`, that token lying within the buffer, `GetClosedStringFor` returns the
contiguous substring of the buffer that starts at `begin` and has length
`tokenEnd(end) - begin`: its characters are those of the buffer from `begin` on, in order,
and the buffer is the text before `begin`, the result, and the text from the end of the
token on.  When `begin` is not after `end`, the result ends with the whole final token. -/
theorem C12_closed_string (sm : SourceManager) (begin_loc end_loc : Nat)
    (hb : begin_loc ≤ getLocForEndOfToken sm end_loc)
    (he : getLocForEndOfToken sm end_loc ≤ sm.buffer.data.length) :
    (GetClosedStringFor sm begin_loc end_loc).data.length
        = getLocForEndOfToken sm end_loc - begin_loc
    ∧ (∀ i, i < getLocForEndOfToken sm end_loc - begin_loc →
        (GetClosedStringFor sm begin_loc end_loc).data[i]? = sm.buffer.data[begin_loc + i]?)
    ∧ sm.buffer.data = sm.buffer.data.take begin_loc
        ++ (GetClosedStringFor sm begin_loc end_loc).data
        ++ sm.buffer.data.drop (getLocForEndOfToken sm end_loc)
    ∧ (begin_loc ≤ end_loc →
        GetClosedStringFor sm begin_loc end_loc
          = ⟨(sm.buffer.data.drop begin_loc).take (end_loc - begin_loc)⟩
              ++ tokenText sm end_loc) := by
  refine ⟨?_, fun i hi => ?_, ?_, fun hle => ?_⟩
  · simp only [GetClosedStringFor, List.length_take, List.length_drop]
    omega
  · simp only [GetClosedStringFor]
    rw [List.getElem?_take_of_lt hi, List.getElem?_drop]
  · simp only [GetClosedStringFor]
    have h1 : (sm.buffer.data.drop begin_loc).take (getLocForEndOfToken sm end_loc - begin_loc)
        ++ sm.buffer.data.drop (getLocForEndOfToken sm end_loc)
        = sm.buffer.data.drop begin_loc := by
      have h2 : sm.buffer.data.drop (getLocForEndOfToken sm end_loc)
          = (sm.buffer.data.drop begin_loc).drop
              (getLocForEndOfToken sm end_loc - begin_loc) := by
        rw [List.drop_drop]
        congr 1
        omega
      rw [h2, List.take_append_drop]
    rw [List.append_assoc, h1, List.take_append_drop]
  · apply String.ext
    simp only [GetClosedStringFor, tokenText, String.data_append, getLocForEndOfToken]
    have h3 : end_loc + sm.MeasureTokenLength end_loc - begin_loc
        = (end_loc - begin_loc) + sm.MeasureTokenLength end_loc := by omega
    have h4 : sm.buffer.data.drop end_loc
        = (sm.buffer.data.drop begin_loc).drop (end_loc - begin_loc) := by
      rw [List.drop_drop]
      congr 1
      omega
    rw [h3, h4, List.take_add]

/-- Witness of C12: in `(0 + ... + args)` the slice from offset 1 to the token `args` at
offset 11. -/
theorem C12_closed_string_witness :
    1 ≤ getLocForEndOfToken (exampleSM "(0 + ... + args)") 11
    ∧ getLocForEndOfToken (exampleSM "(0 + ... + args)") 11
        ≤ (exampleSM "(0 + ... + args)").buffer.data.length
    ∧ GetClosedStringFor (exampleSM "(0 + ... + args)") 1 11 = "0 + ... + args"
    ∧ tokenText (exampleSM "(0 + ... + args)") 11 = "args" :=
  ⟨by decide, by decide,
   ((C12_closed_string (exampleSM "(0 + ... + args)") 1 11 (by decide) (by decide)).2.2.2
      (by decide)).trans (by decide),
   by decide⟩

/-! ## C13: failures of the fold visitor -/

theorem VisitCXXFoldExpr_effect (sm : SourceManager) (expr : CXXFoldExpr) (rewriter : Rewriter) :
    VisitCXXFoldExpr sm expr rewriter
      = match VisitCXXFoldExpr.effect sm expr rewriter with
        | (.ok b, out) => .ok (b, out)
        | (.error ex, _) => .error ex := by
  unfold VisitCXXFoldExpr VisitCXXFoldExpr.effect
  by_cases hg : expr.op = .BO_PtrMemD ∨ expr.op = .BO_PtrMemI
  · simp only [hg, if_true]
  · simp only [hg, if_false]
    cases operators_at expr.op <;> rfl

theorem VisitCXXFoldExpr_unmapped (sm : SourceManager) (expr : CXXFoldExpr)
    (rewriter : Rewriter) (hg : ¬(expr.op = .BO_PtrMemD ∨ expr.op = .BO_PtrMemI))
    (hl : operators.lookup expr.op = none) :
    VisitCXXFoldExpr sm expr rewriter = .error .out_of_range := by
  unfold VisitCXXFoldExpr operators_at
  simp only [hg, if_false, hl]

theorem effect_of_error (sm : SourceManager) (expr : CXXFoldExpr) (rewriter : Rewriter)
    (ex : Exception) (h : VisitCXXFoldExpr sm expr rewriter = .error ex) :
    VisitCXXFoldExpr.effect sm expr rewriter = (.error ex, rewriter) := by
  by_cases hg : expr.op = .BO_PtrMemD ∨ expr.op = .BO_PtrMemI
  · rw [VisitCXXFoldExpr_member_pointer sm expr rewriter hg] at h
    cases h
    unfold VisitCXXFoldExpr.effect
    simp only [hg, if_true]
  · cases hl : operators.lookup expr.op with
    | none =>
      rw [VisitCXXFoldExpr_unmapped sm expr rewriter hg hl] at h
      cases h
      unfold VisitCXXFoldExpr.effect operators_at
      simp only [hg, if_false, hl]
    | some name =>
      rw [VisitCXXFoldExpr_step4 sm expr rewriter name hl] at h
      cases h

/-- C13: for every fold expression whose operator is neither `.*` nor `->*` nor in the
operator table, `VisitCXXFoldExpr` throws (the `out_of_range` of the lookup) and builds no
text; and whenever `VisitCXXFoldExpr` throws, for a member-pointer operator or an operator
outside the table, it leaves the rewriter as it found it, with the same edits. -/
theorem C13_unmapped_operator_fails :
    (∀ (sm : SourceManager) (expr : CXXFoldExpr) (rewriter : Rewriter),
      ¬(expr.op = .BO_PtrMemD ∨ expr.op = .BO_PtrMemI) → operators.lookup expr.op = none →
      VisitCXXFoldExpr sm expr rewriter = .error .out_of_range
        ∧ TraverseCXXFoldExpr sm expr rewriter = .error .out_of_range)
    ∧ (∀ (sm : SourceManager) (expr : CXXFoldExpr) (rewriter : Rewriter) (ex : Exception),
      VisitCXXFoldExpr sm expr rewriter = .error ex →
      (expr.op = .BO_PtrMemD ∨ expr.op = .BO_PtrMemI ∨ operators.lookup expr.op = none)
        ∧ VisitCXXFoldExpr.effect sm expr rewriter = (.error ex, rewriter)
        ∧ (VisitCXXFoldExpr.effect sm expr rewriter).2.edits = rewriter.edits)
    ∧ (∀ (sm : SourceManager) (expr : CXXFoldExpr) (rewriter : Rewriter),
      VisitCXXFoldExpr sm expr rewriter
        = match VisitCXXFoldExpr.effect sm expr rewriter with
          | (.ok b, out) => .ok (b, out)
          | (.error ex, _) => .error ex) := by
  refine ⟨fun sm expr rewriter hg hl => ?_, fun sm expr rewriter ex h => ?_,
    VisitCXXFoldExpr_effect⟩
  · have hv := VisitCXXFoldExpr_unmapped sm expr rewriter hg hl
    exact ⟨hv, by simp only [TraverseCXXFoldExpr, hv]⟩
  · have he := effect_of_error sm expr rewriter ex h
    refine ⟨?_, he, by rw [he]⟩
    by_cases hg : expr.op = .BO_PtrMemD ∨ expr.op = .BO_PtrMemI
    · rcases hg with hg | hg
      · exact Or.inl hg
      · exact Or.inr (Or.inl hg)
    · cases hl : operators.lookup expr.op with
      | none => exact Or.inr (Or.inr rfl)
      | some name =>
        rw [VisitCXXFoldExpr_step4 sm expr rewriter name hl] at h
        cases h

/-- Witness of C13: a right fold on the three-way comparison, the operator kind that is
neither a member-pointer access nor in the table, visited after an earlier edit. -/
theorem C13_unmapped_operator_fails_witness :
    operators.lookup .BO_Cmp = none
    ∧ VisitCXXFoldExpr (exampleSM "(args <=> ...)")
        ⟨⟨0, 13⟩, .BO_Cmp, false, .other ⟨1, 1⟩ [], none⟩ ⟨[⟨⟨20, 20⟩, "x"⟩]⟩
      = .error .out_of_range
    ∧ VisitCXXFoldExpr.effect (exampleSM "(args <=> ...)")
        ⟨⟨0, 13⟩, .BO_Cmp, false, .other ⟨1, 1⟩ [], none⟩ ⟨[⟨⟨20, 20⟩, "x"⟩]⟩
      = (.error .out_of_range, ⟨[⟨⟨20, 20⟩, "x"⟩]⟩) :=
  ⟨rfl,
   (C13_unmapped_operator_fails.1 (exampleSM "(args <=> ...)")
      ⟨⟨0, 13⟩, .BO_Cmp, false, .other ⟨1, 1⟩ [], none⟩ ⟨[⟨⟨20, 20⟩, "x"⟩]⟩
      (by decide) rfl).1,
   (C13_unmapped_operator_fails.2.1 (exampleSM "(args <=> ...)")
      ⟨⟨0, 13⟩, .BO_Cmp, false, .other ⟨1, 1⟩ [], none⟩ ⟨[⟨⟨20, 20⟩, "x"⟩]⟩ .out_of_range
      rfl).2.1⟩

end cftf
